import Mathlib

/-!
Verification of the N-up layout / pagination core of `editor_de_pdf.py`.

Geometry is modelled over `ℚ` (the Python source computes with IEEE doubles;
all layout formulas are exact rational expressions, so `ℚ` is the faithful
exact semantics).  The compositor loop of `Worker._generate_pdf` is modelled
as an explicit fuelled recursion returning `Except`, with list indexing
(`page_indices[idx]`, `positions[slot]`) made fallible exactly where the
Python code can raise `IndexError`.
-/

/-- `POINTS_PER_CM` constant (line 18 of the source). -/
def POINTS_PER_CM : ℚ := 28346456692913385 / 1000000000000000

/-- `cm_to_points` (line 25). -/
def cm_to_points (value_cm : ℚ) : ℚ := value_cm * POINTS_PER_CM

/-- A slot rectangle `(x, y, w, h)` as returned by `Worker._layout_positions`. -/
structure Slot where
  x : ℚ
  y : ℚ
  w : ℚ
  h : ℚ
  deriving DecidableEq, Repr

/-- `Worker._layout_positions` (lines 112-127): slot rectangles for one sheet. -/
def layout_positions (page_w page_h : ℚ) (per_sheet : ℕ) (spacing_cm : ℚ) : List Slot :=
  let s := cm_to_points spacing_cm
  if per_sheet = 2 then
    let w := (page_w - 3*s)/2
    let h := page_h - 2*s
    [⟨s, s, w, h⟩, ⟨2*s+w, s, w, h⟩]
  else if per_sheet = 4 then
    let w := (page_w - 3*s)/2
    let h := (page_h - 3*s)/2
    [⟨s, s, w, h⟩, ⟨2*s+w, s, w, h⟩, ⟨s, 2*s+h, w, h⟩, ⟨2*s+w, 2*s+h, w, h⟩]
  else if per_sheet = 8 then
    let w := (page_w - 5*s)/4
    let h := (page_h - 3*s)/2
    [⟨s, s, w, h⟩, ⟨2*s+w, s, w, h⟩, ⟨3*s+2*w, s, w, h⟩, ⟨4*s+3*w, s, w, h⟩,
     ⟨s, 2*s+h, w, h⟩, ⟨2*s+w, 2*s+h, w, h⟩, ⟨3*s+2*w, 2*s+h, w, h⟩, ⟨4*s+3*w, 2*s+h, w, h⟩]
  else
    [⟨s, s, page_w - 2*s, page_h - 2*s⟩]

/-- Spec-side slot `(r, c)`: origin `x = spacing + c·(width+spacing)`,
`y = spacing + r·(height+spacing)` (spec §4.1). -/
def specSlot (s width height : ℚ) (r c : ℕ) : Slot :=
  ⟨s + c*(width+s), s + r*(height+s), width, height⟩

/-- Spec-side grid: slots listed left-to-right within a row, rows bottom-to-top,
with `width = (W − (cols+1)·s)/cols` and `height = (H − (rows+1)·s)/rows`
(spec §4.1). -/
def specGrid (rows cols : ℕ) (s W H : ℚ) : List Slot :=
  (List.range rows).flatMap (fun r =>
    (List.range cols).map (fun c =>
      specSlot s ((W - ((cols:ℚ)+1)*s)/(cols:ℚ)) ((H - ((rows:ℚ)+1)*s)/(rows:ℚ)) r c))

/-- Rows of the grid for each supported pages-per-sheet value (spec §4.1). -/
def gridRows : ℕ → ℕ
  | 2 => 1
  | 4 => 2
  | 8 => 2
  | _ => 1

/-- Columns of the grid for each supported pages-per-sheet value (spec §4.1). -/
def gridCols : ℕ → ℕ
  | 2 => 2
  | 4 => 2
  | 8 => 4
  | _ => 1

/-- A point of the plane lies in a slot (slots are closed rectangles;
a slot of negative width or height contains no point). -/
def Slot.containsPt (sl : Slot) (p : ℚ × ℚ) : Prop :=
  sl.x ≤ p.1 ∧ p.1 ≤ sl.x + sl.w ∧ sl.y ≤ p.2 ∧ p.2 ≤ sl.y + sl.h

/-- A slot is contained in the sheet `[0, W] × [0, H]`. -/
def Slot.containedIn (sl : Slot) (W H : ℚ) : Prop :=
  ∀ p : ℚ × ℚ, sl.containsPt p → 0 ≤ p.1 ∧ p.1 ≤ W ∧ 0 ≤ p.2 ∧ p.2 ≤ H

/-- Two slots overlap when their interiors share a point. -/
def Slot.overlapsWith (a b : Slot) : Prop :=
  ∃ p : ℚ × ℚ,
    (a.x < p.1 ∧ p.1 < a.x + a.w ∧ a.y < p.2 ∧ p.2 < a.y + a.h) ∧
    (b.x < p.1 ∧ p.1 < b.x + b.w ∧ b.y < p.2 ∧ p.2 < b.y + b.h)

lemma POINTS_PER_CM_pos : 0 < POINTS_PER_CM := by norm_num [POINTS_PER_CM]

lemma cm_to_points_nonneg {c : ℚ} (hc : 0 ≤ c) : 0 ≤ cm_to_points c :=
  mul_nonneg hc POINTS_PER_CM_pos.le

/-- Two distinct grid positions never overlap (separated by the spacing on the
axis where they differ; degenerate slots have empty interiors). -/
lemma specSlot_not_overlaps (s width height : ℚ) (hs : 0 ≤ s) (r c r' c' : ℕ)
    (hne : ¬ (r = r' ∧ c = c')) :
    ¬ Slot.overlapsWith (specSlot s width height r c) (specSlot s width height r' c') := by
  rintro ⟨⟨px, py⟩, ⟨hax, haxw, hay, hayh⟩, ⟨hbx, hbxw, hby, hbyh⟩⟩
  simp only [specSlot] at hax haxw hay hayh hbx hbxw hby hbyh
  have hw : 0 < width := by nlinarith
  have hh : 0 < height := by nlinarith
  rcases Nat.lt_trichotomy c c' with hcc | hcc | hcc
  · have h1 : (c:ℚ) + 1 ≤ (c':ℚ) := by exact_mod_cast hcc
    nlinarith [mul_le_mul_of_nonneg_right h1 (by linarith : (0:ℚ) ≤ width + s)]
  · subst hcc
    rcases Nat.lt_trichotomy r r' with hrr | hrr | hrr
    · have h1 : (r:ℚ) + 1 ≤ (r':ℚ) := by exact_mod_cast hrr
      nlinarith [mul_le_mul_of_nonneg_right h1 (by linarith : (0:ℚ) ≤ height + s)]
    · exact hne ⟨hrr, rfl⟩
    · have h1 : (r':ℚ) + 1 ≤ (r:ℚ) := by exact_mod_cast hrr
      nlinarith [mul_le_mul_of_nonneg_right h1 (by linarith : (0:ℚ) ≤ height + s)]
  · have h1 : (c':ℚ) + 1 ≤ (c:ℚ) := by exact_mod_cast hcc
    nlinarith [mul_le_mul_of_nonneg_right h1 (by linarith : (0:ℚ) ≤ width + s)]

/-- A grid slot at a valid position is contained in the sheet, given the exact
tiling identities relating the slot dimensions to the sheet dimensions. -/
lemma specSlot_containedIn (s width height W H : ℚ) (hs : 0 ≤ s)
    (rows cols r c : ℕ) (hr : r < rows) (hc : c < cols)
    (hW : (cols:ℚ)*width + ((cols:ℚ)+1)*s = W)
    (hH : (rows:ℚ)*height + ((rows:ℚ)+1)*s = H) :
    Slot.containedIn (specSlot s width height r c) W H := by
  rintro ⟨px, py⟩ ⟨hax, haxw, hay, hayh⟩
  simp only [specSlot] at hax haxw hay hayh
  have hw : 0 ≤ width := by nlinarith
  have hh : 0 ≤ height := by nlinarith
  have hc' : (c:ℚ) + 1 ≤ (cols:ℚ) := by exact_mod_cast hc
  have hr' : (r:ℚ) + 1 ≤ (rows:ℚ) := by exact_mod_cast hr
  have hc0 : (0:ℚ) ≤ (c:ℚ) := Nat.cast_nonneg c
  have hr0 : (0:ℚ) ≤ (r:ℚ) := Nat.cast_nonneg r
  refine ⟨?_, ?_, ?_, ?_⟩
  · nlinarith [mul_nonneg hc0 (add_nonneg hw hs)]
  · nlinarith [mul_nonneg (by linarith : (0:ℚ) ≤ (cols:ℚ) - c - 1) hw,
      mul_nonneg (by linarith : (0:ℚ) ≤ (cols:ℚ) - c) hs]
  · nlinarith [mul_nonneg hr0 (add_nonneg hh hs)]
  · nlinarith [mul_nonneg (by linarith : (0:ℚ) ≤ (rows:ℚ) - r - 1) hh,
      mul_nonneg (by linarith : (0:ℚ) ≤ (rows:ℚ) - r) hs]

lemma mem_specGrid {rows cols : ℕ} {s W H : ℚ} {sl : Slot}
    (h : sl ∈ specGrid rows cols s W H) :
    ∃ r c, r < rows ∧ c < cols ∧
      sl = specSlot s ((W - ((cols:ℚ)+1)*s)/(cols:ℚ)) ((H - ((rows:ℚ)+1)*s)/(rows:ℚ)) r c := by
  simp only [specGrid, List.mem_flatMap, List.mem_map, List.mem_range] at h
  obtain ⟨r, hr, c, hc, hsl⟩ := h
  exact ⟨r, c, hr, hc, hsl.symm⟩

/-- Every slot of a grid with positive row and column counts is contained in
the sheet. -/
lemma specGrid_containedIn (rows cols : ℕ) (hrows : 0 < rows) (hcols : 0 < cols)
    (s W H : ℚ) (hs : 0 ≤ s) :
    ∀ sl ∈ specGrid rows cols s W H, Slot.containedIn sl W H := by
  intro sl hsl
  obtain ⟨r, c, hr, hc, rfl⟩ := mem_specGrid hsl
  have hcq : ((cols:ℚ)) ≠ 0 := Nat.cast_ne_zero.mpr hcols.ne'
  have hrq : ((rows:ℚ)) ≠ 0 := Nat.cast_ne_zero.mpr hrows.ne'
  refine specSlot_containedIn _ _ _ _ _ hs rows cols r c hr hc ?_ ?_
  · field_simp
  · field_simp

lemma layout_eq_specGrid_one (W H sc : ℚ) :
    layout_positions W H 1 sc = specGrid 1 1 (cm_to_points sc) W H := by
  have h1 : List.range 1 = [0] := rfl
  simp only [layout_positions, specGrid, h1, List.flatMap_cons, List.flatMap_nil,
    List.map_cons, List.map_nil, List.append_nil, specSlot]
  norm_num [Slot.mk.injEq]
  repeat' apply And.intro
  all_goals first | trivial | ring

lemma layout_eq_specGrid_two (W H sc : ℚ) :
    layout_positions W H 2 sc = specGrid 1 2 (cm_to_points sc) W H := by
  have h1 : List.range 1 = [0] := rfl
  have h2 : List.range 2 = [0, 1] := rfl
  simp only [layout_positions, specGrid, h1, h2, List.flatMap_cons, List.flatMap_nil,
    List.map_cons, List.map_nil, List.append_nil, specSlot]
  norm_num [Slot.mk.injEq]
  repeat' apply And.intro
  all_goals first | trivial | ring

lemma layout_eq_specGrid_four (W H sc : ℚ) :
    layout_positions W H 4 sc = specGrid 2 2 (cm_to_points sc) W H := by
  have h2 : List.range 2 = [0, 1] := rfl
  simp only [layout_positions, specGrid, h2, List.flatMap_cons, List.flatMap_nil,
    List.map_cons, List.map_nil, List.append_nil, List.cons_append, List.nil_append, specSlot]
  norm_num [Slot.mk.injEq]
  repeat' apply And.intro
  all_goals first | trivial | ring

lemma layout_eq_specGrid_eight (W H sc : ℚ) :
    layout_positions W H 8 sc = specGrid 2 4 (cm_to_points sc) W H := by
  have h1 : List.range 2 = [0, 1] := rfl
  have h2 : List.range 4 = [0, 1, 2, 3] := rfl
  simp only [layout_positions, specGrid, h1, h2, List.flatMap_cons, List.flatMap_nil,
    List.map_cons, List.map_nil, List.append_nil, List.cons_append, List.nil_append, specSlot]
  norm_num [Slot.mk.injEq]
  repeat' apply And.intro
  all_goals first | trivial | ring

lemma specGrid_pairwise_one (s W H : ℚ) (hs : 0 ≤ s) :
    List.Pairwise (fun a b => ¬ Slot.overlapsWith a b) (specGrid 1 1 s W H) := by
  have h1 : List.range 1 = [0] := rfl
  simp only [specGrid, h1, List.flatMap_cons, List.flatMap_nil,
    List.map_cons, List.map_nil, List.append_nil]
  simp only [List.pairwise_cons, List.forall_mem_cons]
  repeat' apply And.intro
  all_goals first
    | exact List.Pairwise.nil
    | exact fun x hx => absurd hx (List.not_mem_nil x)
    | exact specSlot_not_overlaps _ _ _ hs _ _ _ _ (by decide)

lemma specGrid_pairwise_two (s W H : ℚ) (hs : 0 ≤ s) :
    List.Pairwise (fun a b => ¬ Slot.overlapsWith a b) (specGrid 1 2 s W H) := by
  have h1 : List.range 1 = [0] := rfl
  have h2 : List.range 2 = [0, 1] := rfl
  simp only [specGrid, h1, h2, List.flatMap_cons, List.flatMap_nil,
    List.map_cons, List.map_nil, List.append_nil]
  simp only [List.pairwise_cons, List.forall_mem_cons]
  repeat' apply And.intro
  all_goals first
    | exact List.Pairwise.nil
    | exact fun x hx => absurd hx (List.not_mem_nil x)
    | exact specSlot_not_overlaps _ _ _ hs _ _ _ _ (by decide)

lemma specGrid_pairwise_four (s W H : ℚ) (hs : 0 ≤ s) :
    List.Pairwise (fun a b => ¬ Slot.overlapsWith a b) (specGrid 2 2 s W H) := by
  have h2 : List.range 2 = [0, 1] := rfl
  simp only [specGrid, h2, List.flatMap_cons, List.flatMap_nil,
    List.map_cons, List.map_nil, List.append_nil, List.cons_append, List.nil_append]
  simp only [List.pairwise_cons, List.forall_mem_cons]
  repeat' apply And.intro
  all_goals first
    | exact List.Pairwise.nil
    | exact fun x hx => absurd hx (List.not_mem_nil x)
    | exact specSlot_not_overlaps _ _ _ hs _ _ _ _ (by decide)

lemma specGrid_pairwise_eight (s W H : ℚ) (hs : 0 ≤ s) :
    List.Pairwise (fun a b => ¬ Slot.overlapsWith a b) (specGrid 2 4 s W H) := by
  have h1 : List.range 2 = [0, 1] := rfl
  have h2 : List.range 4 = [0, 1, 2, 3] := rfl
  simp only [specGrid, h1, h2, List.flatMap_cons, List.flatMap_nil,
    List.map_cons, List.map_nil, List.append_nil, List.cons_append, List.nil_append]
  simp only [List.pairwise_cons, List.forall_mem_cons]
  repeat' apply And.intro
  all_goals first
    | exact List.Pairwise.nil
    | exact fun x hx => absurd hx (List.not_mem_nil x)
    | exact specSlot_not_overlaps _ _ _ hs _ _ _ _ (by decide)

/-- C1: for pages-per-sheet `v ∈ {1,2,4,8}` and spacing `≥ 0`, the layout equals
the spec grid (slot dimensions `(W − (cols+1)s)/cols × (H − (rows+1)s)/rows`,
origin `x = s + c·(w+s)`, `y = s + r·(h+s)`, listed left-to-right then
bottom-to-top), has exactly `v` slots, the slots are mutually non-overlapping,
and every slot is contained in `[0, W] × [0, H]`. -/
theorem layout_positions_spec (W H sc : ℚ) (hW : 0 < W) (hH : 0 < H) (hsc : 0 ≤ sc)
    (v : ℕ) (hv : v = 1 ∨ v = 2 ∨ v = 4 ∨ v = 8) :
    layout_positions W H v sc = specGrid (gridRows v) (gridCols v) (cm_to_points sc) W H ∧
    (layout_positions W H v sc).length = v ∧
    List.Pairwise (fun a b => ¬ Slot.overlapsWith a b) (layout_positions W H v sc) ∧
    ∀ sl ∈ layout_positions W H v sc, Slot.containedIn sl W H := by
  have hs : 0 ≤ cm_to_points sc := cm_to_points_nonneg hsc
  rcases hv with rfl | rfl | rfl | rfl
  · refine ⟨layout_eq_specGrid_one W H sc, rfl, ?_, ?_⟩
    · rw [layout_eq_specGrid_one]
      exact specGrid_pairwise_one _ _ _ hs
    · intro sl hsl
      rw [layout_eq_specGrid_one] at hsl
      exact specGrid_containedIn 1 1 (by norm_num) (by norm_num) _ W H hs sl hsl
  · refine ⟨layout_eq_specGrid_two W H sc, rfl, ?_, ?_⟩
    · rw [layout_eq_specGrid_two]
      exact specGrid_pairwise_two _ _ _ hs
    · intro sl hsl
      rw [layout_eq_specGrid_two] at hsl
      exact specGrid_containedIn 1 2 (by norm_num) (by norm_num) _ W H hs sl hsl
  · refine ⟨layout_eq_specGrid_four W H sc, rfl, ?_, ?_⟩
    · rw [layout_eq_specGrid_four]
      exact specGrid_pairwise_four _ _ _ hs
    · intro sl hsl
      rw [layout_eq_specGrid_four] at hsl
      exact specGrid_containedIn 2 2 (by norm_num) (by norm_num) _ W H hs sl hsl
  · refine ⟨layout_eq_specGrid_eight W H sc, rfl, ?_, ?_⟩
    · rw [layout_eq_specGrid_eight]
      exact specGrid_pairwise_eight _ _ _ hs
    · intro sl hsl
      rw [layout_eq_specGrid_eight] at hsl
      exact specGrid_containedIn 2 4 (by norm_num) (by norm_num) _ W H hs sl hsl

/-- Witness for C1 at `W = H = 10`, spacing `0`, `v = 4`. -/
theorem layout_positions_spec_witness :
    layout_positions 10 10 4 0 = specGrid (gridRows 4) (gridCols 4) (cm_to_points 0) 10 10 ∧
    (layout_positions 10 10 4 0).length = 4 ∧
    List.Pairwise (fun a b => ¬ Slot.overlapsWith a b) (layout_positions 10 10 4 0) ∧
    ∀ sl ∈ layout_positions 10 10 4 0, Slot.containedIn sl 10 10 :=
  layout_positions_spec 10 10 0 (by norm_num) (by norm_num) (by norm_num) 4
    (Or.inr (Or.inr (Or.inl rfl)))

/-- Lines 85-88: `page_indices = page_order if page_order else list(range(total_pages))`;
Python truthiness makes both `None` and the empty list fall back to the
identity order. -/
def pageIndices (page_order : Option (List ℕ)) (total_pages : ℕ) : List ℕ :=
  match page_order with
  | some l => if l.isEmpty then List.range total_pages else l
  | none => List.range total_pages

/-- The inner `for slot in range(self.pages_per_sheet)` loop (lines 92-100):
break once `idx` reaches `total_pages`, otherwise read `page_indices[idx]` and
`positions[slot]` (either read may fail, as in Python) and record the
placement.  Returns the placements of one sheet and the advanced `idx`. -/
def placeChunk (pageIdxs : List ℕ) (positions : List Slot) (total : ℕ) :
    List ℕ → ℕ → Except String (List (ℕ × Slot) × ℕ)
  | [], idx => .ok ([], idx)
  | slot :: rest, idx =>
    if total ≤ idx then .ok ([], idx)
    else
      match pageIdxs[idx]?, positions[slot]? with
      | some p, some pos =>
        match placeChunk pageIdxs positions total rest (idx+1) with
        | .ok (tail, idx2) => .ok ((p, pos) :: tail, idx2)
        | .error e => .error e
      | _, _ => .error "IndexError"

/-- The outer `while idx < total_pages` loop (lines 90-101), fuelled.  Each
iteration emits one finalized sheet (`c.showPage()`).  With
`pages_per_sheet = 0` the Python loop never terminates; the model returns an
error once the fuel is exhausted, and every claim below supplies
`pages_per_sheet ≥ 1`, where fuel `total_pages` always suffices. -/
def composeAux (pageIdxs : List ℕ) (positions : List Slot) (total per_sheet : ℕ) :
    ℕ → ℕ → Except String (List (List (ℕ × Slot)))
  | 0, idx => if total ≤ idx then .ok [] else .error "OutOfFuel"
  | fuel+1, idx =>
    if total ≤ idx then .ok []
    else
      match placeChunk pageIdxs positions total (List.range per_sheet) idx with
      | .ok (sheet, idx2) =>
        match composeAux pageIdxs positions total per_sheet fuel idx2 with
        | .ok sheets => .ok (sheet :: sheets)
        | .error e => .error e
      | .error e => .error e

/-- Lines 76-79: the effective sheet dimensions after the orientation swap. -/
def effective_page_size (page_size_pts : ℚ × ℚ) (orientation : String) : ℚ × ℚ :=
  if orientation = "Horizontal" then
    (max page_size_pts.1 page_size_pts.2, min page_size_pts.1 page_size_pts.2)
  else
    (min page_size_pts.1 page_size_pts.2, max page_size_pts.1 page_size_pts.2)

/-- `Worker._generate_pdf` (lines 73-102): orientation swap, layout, page
order fallback, then the chunked placement loop.  The output is the sequence
of finalized sheets, each a list of `(page index, slot rectangle)` placements
in fill order. -/
def generate_pdf (total_pages : ℕ) (page_size_pts : ℚ × ℚ) (orientation : String)
    (pages_per_sheet : ℕ) (spacing_cm : ℚ) (page_order : Option (List ℕ)) :
    Except String (List (List (ℕ × Slot))) :=
  let eff := effective_page_size page_size_pts orientation
  let positions := layout_positions eff.1 eff.2 pages_per_sheet spacing_cm
  composeAux (pageIndices page_order total_pages) positions total_pages pages_per_sheet
    total_pages 0

/-- Sheet occupancies when `m` pages are taken in chunks of `pps`. -/
def chunkSizes (pps : ℕ) : ℕ → List ℕ
  | 0 => []
  | m+1 => min pps (m+1) :: chunkSizes pps (m + 1 - max pps 1)
termination_by m => m
decreasing_by omega

/-- Behaviour of one inner-loop pass: it advances `idx` to
`min (idx + slots.length) total`, placing that many pages, and fails with an
`IndexError` exactly when some visited index falls outside `pageIdxs`. -/
lemma placeChunk_spec (pageIdxs : List ℕ) (positions : List Slot) (total : ℕ)
    (slots : List ℕ) :
    ∀ idx : ℕ, idx ≤ total → (∀ s ∈ slots, s < positions.length) →
      (min (idx + slots.length) total ≤ max idx pageIdxs.length →
        ∃ pl, placeChunk pageIdxs positions total slots idx =
            .ok (pl, min (idx + slots.length) total) ∧
          pl.length = min slots.length (total - idx)) ∧
      (max idx pageIdxs.length < min (idx + slots.length) total →
        placeChunk pageIdxs positions total slots idx = .error "IndexError") := by
  induction slots with
  | nil =>
    intro idx hidx _
    simp only [List.length_nil, Nat.add_zero]
    constructor
    · intro _
      refine ⟨[], ?_, ?_⟩
      · have hmin : min idx total = idx := by omega
        rw [hmin]
        simp only [placeChunk]
      · simp only [List.length_nil]
        omega
    · intro h
      omega
  | cons s rest ih =>
    intro idx hidx hP
    simp only [List.length_cons]
    by_cases h1 : total ≤ idx
    · constructor
      · intro _
        refine ⟨[], ?_, ?_⟩
        · have hmin : min (idx + (rest.length + 1)) total = idx := by omega
          rw [hmin]
          simp only [placeChunk, if_pos h1]
        · simp only [List.length_nil]
          omega
      · intro h
        omega
    · have hslot : s < positions.length := hP s (List.mem_cons_self s rest)
      by_cases h2 : idx < pageIdxs.length
      · have hpage : pageIdxs[idx]? = some (pageIdxs.get ⟨idx, h2⟩) := by
          rw [List.getElem?_eq_getElem h2, List.get_eq_getElem]
        have hpos : positions[s]? = some (positions.get ⟨s, hslot⟩) := by
          rw [List.getElem?_eq_getElem hslot, List.get_eq_getElem]
        have ih2 := ih (idx+1) (by omega) (fun t ht => hP t (List.mem_cons_of_mem s ht))
        constructor
        · intro hok
          obtain ⟨pl, hpl, hlen⟩ := ih2.1 (by omega)
          refine ⟨(pageIdxs.get ⟨idx, h2⟩, positions.get ⟨s, hslot⟩) :: pl, ?_, ?_⟩
          · have hmin : min ((idx+1) + rest.length) total = min (idx + (rest.length + 1)) total := by
              omega
            rw [hmin] at hpl
            simp only [placeChunk, if_neg h1, hpage, hpos, hpl]
          · simp only [List.length_cons]
            omega
        · intro herr
          have := ih2.2 (by omega)
          simp only [placeChunk, if_neg h1, hpage, hpos, this]
      · have hpage : pageIdxs[idx]? = none := by
          rw [List.getElem?_eq_none_iff]
          omega
        constructor
        · intro hok
          exfalso
          omega
        · intro _
          simp only [placeChunk, if_neg h1, hpage]

lemma chunkSizes_ne_nil (pps m : ℕ) (hm : 0 < m) : chunkSizes pps m ≠ [] := by
  match m, hm with
  | m+1, _ => rw [chunkSizes]; simp

lemma chunkSizes_sum (pps : ℕ) (hp : 0 < pps) (m : ℕ) : (chunkSizes pps m).sum = m := by
  induction m using Nat.strong_induction_on with
  | _ m ih =>
    match m with
    | 0 => rw [chunkSizes]; rfl
    | m+1 =>
      rw [chunkSizes]
      rw [List.sum_cons, ih (m + 1 - max pps 1) (by omega)]
      omega

lemma chunkSizes_length_four (m : ℕ) : (chunkSizes 4 m).length = (m + 3) / 4 := by
  induction m using Nat.strong_induction_on with
  | _ m ih =>
    match m with
    | 0 => rw [chunkSizes]; rfl
    | m+1 =>
      rw [chunkSizes]
      rw [List.length_cons, ih (m + 1 - max 4 1) (by omega)]
      omega

lemma chunkSizes_getLast_four (m : ℕ) (hm : 0 < m) :
    (chunkSizes 4 m).getLast? = some (if m % 4 = 0 then 4 else m % 4) := by
  induction m using Nat.strong_induction_on with
  | _ m ih =>
    match m, hm with
    | m+1, _ =>
      rw [chunkSizes]
      by_cases h4 : m + 1 ≤ 4
      · have hz : m + 1 - max 4 1 = 0 := by omega
        rw [hz]
        rw [chunkSizes]
        simp only [List.getLast?_singleton, Option.some.injEq]
        by_cases hmod : (m + 1) % 4 = 0
        · rw [if_pos hmod]
          omega
        · rw [if_neg hmod]
          omega
      · have hpos : 0 < m + 1 - max 4 1 := by omega
        rw [← List.singleton_append,
          List.getLast?_append_of_ne_nil _ (chunkSizes_ne_nil 4 _ hpos)]
        rw [ih (m + 1 - max 4 1) (by omega) hpos]
        have hmod : (m + 1 - max 4 1) % 4 = (m + 1) % 4 := by omega
        rw [hmod]

/-- Behaviour of the outer loop: with ≥ 1 page per sheet, enough fuel, and a
layout with at least `pps` slots, it succeeds iff the page-index list covers
`total` indices, producing sheets whose occupancies are the chunk sizes of
`total − idx`; a shorter page-index list makes it fail. -/
lemma composeAux_spec (pageIdxs : List ℕ) (positions : List Slot) (pps : ℕ)
    (hpps : 0 < pps) (hP : pps ≤ positions.length) :
    ∀ (fuel total idx : ℕ), idx ≤ total → total ≤ idx + fuel * pps →
      (total ≤ max idx pageIdxs.length →
        ∃ sheets, composeAux pageIdxs positions total pps fuel idx = .ok sheets ∧
          sheets.map List.length = chunkSizes pps (total - idx)) ∧
      (max idx pageIdxs.length < total →
        ∃ e, composeAux pageIdxs positions total pps fuel idx = .error e) := by
  intro fuel
  induction fuel with
  | zero =>
    intro total idx hidx hfuel
    simp only [Nat.zero_mul, Nat.add_zero] at hfuel
    have heq : idx = total := by omega
    constructor
    · intro _
      refine ⟨[], ?_, ?_⟩
      · simp only [composeAux, if_pos (le_of_eq heq.symm)]
      · have : total - idx = 0 := by omega
        rw [this, chunkSizes]
        rfl
    · intro h
      omega
  | succ fuel ih =>
    intro total idx hidx hfuel
    have hmul : (fuel + 1) * pps = fuel * pps + pps := by ring
    by_cases h1 : total ≤ idx
    · constructor
      · intro _
        refine ⟨[], ?_, ?_⟩
        · simp only [composeAux, if_pos h1]
        · have : total - idx = 0 := by omega
          rw [this, chunkSizes]
          rfl
      · intro h
        omega
    · have hchunk := placeChunk_spec pageIdxs positions total (List.range pps) idx hidx
        (by intro t ht; rw [List.mem_range] at ht; omega)
      rw [List.length_range] at hchunk
      constructor
      · intro hok
        have hL : total ≤ pageIdxs.length := by omega
        obtain ⟨pl, hpl, hlen⟩ := hchunk.1 (by omega)
        have hrec := ih total (min (idx + pps) total) (by omega) (by omega)
        obtain ⟨sheets, hsheets, hmap⟩ := hrec.1 (by omega)
        refine ⟨pl :: sheets, ?_, ?_⟩
        · simp only [composeAux, if_neg h1, hpl, hsheets]
        · rw [List.map_cons, hmap, hlen]
          have htail : total - min (idx + pps) total = (total - idx) - pps := by omega
          rw [htail]
          have hm1 : total - idx = (total - idx - 1) + 1 := by omega
          conv_rhs => rw [hm1, chunkSizes]
          congr 1
          · omega
          · congr 1
            omega
      · intro herr
        have hL : pageIdxs.length < total := by omega
        by_cases hc : max idx pageIdxs.length < min (idx + pps) total
        · refine ⟨"IndexError", ?_⟩
          simp only [composeAux, if_neg h1, hchunk.2 hc]
        · obtain ⟨pl, hpl, hlen⟩ := hchunk.1 (by omega)
          have hrec := ih total (min (idx + pps) total) (by omega) (by omega)
          obtain ⟨e, he⟩ := hrec.2 (by omega)
          refine ⟨e, ?_⟩
          simp only [composeAux, if_neg h1, hpl, he]

lemma layout_positions_length (W H sc : ℚ) (pps : ℕ)
    (h : pps = 1 ∨ pps = 2 ∨ pps = 4 ∨ pps = 8) :
    (layout_positions W H pps sc).length = pps := by
  rcases h with rfl | rfl | rfl | rfl <;> rfl

lemma pageIndices_none (n : ℕ) : pageIndices none n = List.range n := rfl

/-- C3: with the identity order and `pages_per_sheet = 4`, a document of
`n ≥ 1` pages yields exactly `⌈n/4⌉ = (n+3)/4` finalized sheets, the last
holding `n mod 4` occupied slots when `n` is not a multiple of `4` (and `4`
otherwise), with no error and no padding. -/
theorem generate_pdf_chunking_four (n : ℕ) (hn : 1 ≤ n) (psize : ℚ × ℚ)
    (orient : String) (sc : ℚ) :
    ∃ sheets, generate_pdf n psize orient 4 sc none = .ok sheets ∧
      sheets.length = (n + 3) / 4 ∧
      sheets.getLast?.map List.length = some (if n % 4 = 0 then 4 else n % 4) := by
  have hspec := composeAux_spec (pageIndices none n)
    (layout_positions (effective_page_size psize orient).1
      (effective_page_size psize orient).2 4 sc)
    4 (by norm_num)
    (le_of_eq (layout_positions_length _ _ _ 4 (by norm_num)).symm)
    n n 0 (by omega) (by omega)
  have hlen : (pageIndices none n).length = n := by
    rw [pageIndices_none, List.length_range]
  obtain ⟨sheets, hok, hmap⟩ := hspec.1 (by rw [hlen]; omega)
  rw [Nat.sub_zero] at hmap
  refine ⟨sheets, hok, ?_, ?_⟩
  · have h1 := congrArg List.length hmap
    rw [List.length_map, chunkSizes_length_four] at h1
    exact h1
  · rw [← List.getLast?_map, hmap, chunkSizes_getLast_four n hn]

/-- Witness for C3: a 5-page document with `pages_per_sheet = 4` yields
exactly 2 sheets, the second with a single occupied slot. -/
theorem generate_pdf_chunking_four_witness :
    ∃ sheets, generate_pdf 5 (10, 20) "Vertical" 4 0 none = .ok sheets ∧
      sheets.length = 2 ∧ sheets.getLast?.map List.length = some 1 := by
  obtain ⟨sheets, h1, h2, h3⟩ :=
    generate_pdf_chunking_four 5 (by norm_num) (10, 20) "Vertical" 0
  refine ⟨sheets, h1, by simpa using h2, by simpa using h3⟩

/-- C2 amended: the placement loop is bounded by the document's `page_count`
(`total_pages`), not by `len(page_order)`.  With a nonempty override of length
`≥ page_count`, exactly `page_count` pages are placed and extra entries are
ignored; with a nonempty override shorter than `page_count`, generation fails
with an index error. -/
theorem generate_pdf_bounded_by_page_count (n : ℕ) (psize : ℚ × ℚ) (orient : String)
    (pps : ℕ) (hpps : pps = 1 ∨ pps = 2 ∨ pps = 4 ∨ pps = 8) (sc : ℚ)
    (a : ℕ) (l : List ℕ) :
    (n ≤ (a :: l).length →
      ∃ sheets, generate_pdf n psize orient pps sc (some (a :: l)) = .ok sheets ∧
        (sheets.map List.length).sum = n) ∧
    ((a :: l).length < n →
      ∃ e, generate_pdf n psize orient pps sc (some (a :: l)) = .error e) := by
  have hppspos : 0 < pps := by rcases hpps with rfl | rfl | rfl | rfl <;> norm_num
  have hnn : n ≤ n * pps := Nat.le_mul_of_pos_right n hppspos
  have hspec := composeAux_spec (a :: l)
    (layout_positions (effective_page_size psize orient).1
      (effective_page_size psize orient).2 pps sc)
    pps hppspos
    (le_of_eq (layout_positions_length _ _ _ pps hpps).symm)
    n n 0 (by omega) (by omega)
  constructor
  · intro h
    obtain ⟨sheets, hok, hmap⟩ := hspec.1 (by omega)
    refine ⟨sheets, hok, ?_⟩
    rw [Nat.sub_zero] at hmap
    rw [hmap, chunkSizes_sum pps hppspos]
  · intro h
    obtain ⟨e, he⟩ := hspec.2 (by omega)
    exact ⟨e, he⟩

/-- Witness for C2's amended claim: a 1-page document with order `[0]`. -/
theorem generate_pdf_bounded_by_page_count_witness :
    ∃ sheets, generate_pdf 1 (10, 20) "Vertical" 2 0 (some [0]) = .ok sheets ∧
      (sheets.map List.length).sum = 1 :=
  (generate_pdf_bounded_by_page_count 1 (10, 20) "Vertical" 2 (Or.inr (Or.inl rfl)) 0
    0 []).1 (by simp)

/-- Counterexample to C2 as stated: with `page_count = 1` and the override
`[0, 0]` of length 2, the code places exactly 1 page, not `len(page_order) = 2`
pages — the loop bound is `total_pages`, not `len(page_order)`. -/
theorem generate_pdf_order_length_not_bound :
    ¬ (∀ sheets, generate_pdf 1 (10, 20) "Vertical" 4 0 (some [0, 0]) = .ok sheets →
        (sheets.map List.length).sum = ([0, 0] : List ℕ).length) := by
  intro hcl
  have e3 : layout_positions ((10:ℚ), (20:ℚ)).1 ((10:ℚ), (20:ℚ)).2 4 0 =
      [⟨0, 0, 5, 10⟩, ⟨5, 0, 5, 10⟩, ⟨0, 10, 5, 10⟩, ⟨5, 10, 5, 10⟩] := by
    norm_num [layout_positions, cm_to_points, POINTS_PER_CM, Slot.mk.injEq]
  have heval : generate_pdf 1 (10, 20) "Vertical" 4 0 (some [0, 0]) =
      Except.ok [[(0, ⟨0, 0, 5, 10⟩)]] := by
    simp only [generate_pdf]
    rw [show effective_page_size (10, 20) "Vertical" = ((10:ℚ), (20:ℚ)) from rfl, e3]
    rfl
  have h := hcl [[(0, ⟨0, 0, 5, 10⟩)]] heval
  simp at h

/-- C10: an explicitly supplied empty page order is treated identically to no
override (Python truthiness of `if page_order:`): the effective index list is
the identity `[0, …, page_count−1]`, the generated output is the same as with
no override, and all `page_count` pages are placed. -/
theorem generate_pdf_empty_order (n : ℕ) (psize : ℚ × ℚ) (orient : String)
    (pps : ℕ) (hpps : pps = 1 ∨ pps = 2 ∨ pps = 4 ∨ pps = 8) (sc : ℚ) :
    generate_pdf n psize orient pps sc (some []) = generate_pdf n psize orient pps sc none ∧
    pageIndices (some []) n = List.range n ∧
    ∃ sheets, generate_pdf n psize orient pps sc (some []) = .ok sheets ∧
      (sheets.map List.length).sum = n := by
  refine ⟨rfl, rfl, ?_⟩
  have hppspos : 0 < pps := by rcases hpps with rfl | rfl | rfl | rfl <;> norm_num
  have hnn : n ≤ n * pps := Nat.le_mul_of_pos_right n hppspos
  have hspec := composeAux_spec (pageIndices (some []) n)
    (layout_positions (effective_page_size psize orient).1
      (effective_page_size psize orient).2 pps sc)
    pps hppspos
    (le_of_eq (layout_positions_length _ _ _ pps hpps).symm)
    n n 0 (by omega) (by omega)
  have hlen : (pageIndices (some []) n).length = n := List.length_range n
  obtain ⟨sheets, hok, hmap⟩ := hspec.1 (by omega)
  refine ⟨sheets, hok, ?_⟩
  rw [Nat.sub_zero] at hmap
  rw [hmap, chunkSizes_sum pps hppspos]

/-- Witness for C10 at `n = 3`, `pages_per_sheet = 2`. -/
theorem generate_pdf_empty_order_witness :
    generate_pdf 3 (10, 20) "Vertical" 2 0 (some []) =
      generate_pdf 3 (10, 20) "Vertical" 2 0 none ∧
    pageIndices (some []) 3 = List.range 3 ∧
    ∃ sheets, generate_pdf 3 (10, 20) "Vertical" 2 0 (some []) = .ok sheets ∧
      (sheets.map List.length).sum = 3 :=
  generate_pdf_empty_order 3 (10, 20) "Vertical" 2 (Or.inr (Or.inl rfl)) 0

/-- C5: requesting Horizontal composes on an effective sheet
`(max W H, min W H)`, Vertical on `(min W H, max W H)`, and the effective
dimensions depend only on the unordered pair `{W, H}`. -/
theorem effective_page_size_spec (W H : ℚ) (hW : 0 < W) (hH : 0 < H) :
    effective_page_size (W, H) "Horizontal" = (max W H, min W H) ∧
    effective_page_size (W, H) "Vertical" = (min W H, max W H) ∧
    ∀ o : String, effective_page_size (W, H) o = effective_page_size (H, W) o := by
  refine ⟨by simp [effective_page_size], by simp [effective_page_size], ?_⟩
  intro o
  by_cases ho : o = "Horizontal" <;>
    simp [effective_page_size, ho, max_comm, min_comm]

/-- Witness for C5 at `(W, H) = (2, 3)`. -/
theorem effective_page_size_spec_witness :
    effective_page_size ((2:ℚ), (3:ℚ)) "Horizontal" = (max 2 3, min 2 3) ∧
    effective_page_size ((2:ℚ), (3:ℚ)) "Vertical" = (min 2 3, max 2 3) ∧
    ∀ o : String, effective_page_size ((2:ℚ), (3:ℚ)) o = effective_page_size (3, 2) o :=
  effective_page_size_spec 2 3 (by norm_num) (by norm_num)

/-- C4: exact tiling identities of the computed slot dimensions (with
`s = cm_to_points spacing_cm`): for `pages_per_sheet = 2`, `2w + 3s = W` and
`h + 2s = H`; for `4`, `2w + 3s = W` and `2h + 3s = H`; for `8`,
`4w + 5s = W` and `2h + 3s = H`. -/
theorem layout_tiling_identities (W H sc : ℚ) :
    (∀ sl ∈ layout_positions W H 2 sc,
      2 * sl.w + 3 * cm_to_points sc = W ∧ sl.h + 2 * cm_to_points sc = H) ∧
    (∀ sl ∈ layout_positions W H 4 sc,
      2 * sl.w + 3 * cm_to_points sc = W ∧ 2 * sl.h + 3 * cm_to_points sc = H) ∧
    (∀ sl ∈ layout_positions W H 8 sc,
      4 * sl.w + 5 * cm_to_points sc = W ∧ 2 * sl.h + 3 * cm_to_points sc = H) := by
  refine ⟨?_, ?_, ?_⟩ <;> intro sl hsl <;>
    simp [layout_positions, List.mem_cons] at hsl
  · rcases hsl with rfl | rfl <;> exact ⟨by ring, by ring⟩
  · rcases hsl with rfl | rfl | rfl | rfl <;> exact ⟨by ring, by ring⟩
  · rcases hsl with rfl | rfl | rfl | rfl | rfl | rfl | rfl | rfl <;> exact ⟨by ring, by ring⟩

/-- Witness for C4: the bottom-left slot of the 2-up layout at `W = 10`,
`H = 20`, spacing `0`. -/
theorem layout_tiling_identities_witness :
    2 * (Slot.mk 0 0 5 20).w + 3 * cm_to_points 0 = 10 ∧
    (Slot.mk 0 0 5 20).h + 2 * cm_to_points 0 = 20 := by
  have hmem : (⟨0, 0, 5, 20⟩ : Slot) ∈ layout_positions 10 20 2 0 := by
    norm_num [layout_positions, cm_to_points, POINTS_PER_CM, Slot.mk.injEq, List.mem_cons]
  exact (layout_tiling_identities 10 20 0).1 _ hmem

/-- Signals emitted by `Worker.run` (lines 41-43, 57-71). -/
inductive Signal where
  | progress (value : ℕ)
  | finished (folder : String)
  | error (message : String)
  deriving DecidableEq, Repr

/-- The per-file loop of `Worker.run` (lines 63-69), with the surrounding
`try/except` (lines 58, 70-71): each successful document emits one progress
signal, the loop ends with `finished`, and the first raised exception emits a
single `error` signal and stops everything.  Returns the emitted signals and
the documents on which generation was attempted.  The progress value is
modelled as exact integer arithmetic `(k+1)·100 / total` (the Python code
computes `int(((idx_file+1)/total_files)*100)` in floating point; see C6). -/
def runLoop {α : Type} (gen : α → Except String Unit) (total : ℕ)
    (output_folder : String) : List α → ℕ → List Signal × List α
  | [], _ => ([Signal.finished output_folder], [])
  | f :: rest, k =>
    match gen f with
    | .error e => ([Signal.error e], [f])
    | .ok _ =>
      let r := runLoop gen total output_folder rest (k+1)
      (Signal.progress ((k+1) * 100 / total) :: r.1, f :: r.2)

/-- `Worker.run` (lines 57-71): empty-batch check, then the sequential
per-document loop. -/
def runWorker {α : Type} (files : List α) (gen : α → Except String Unit)
    (output_folder : String) : List Signal × List α :=
  if files.length = 0 then ([Signal.error "No hay archivos para procesar."], [])
  else runLoop gen files.length output_folder files 0

/-- The successive progress signals for `m` completed documents, starting
after `k` already-completed ones. -/
def progressList (total : ℕ) : ℕ → ℕ → List Signal
  | 0, _ => []
  | m+1, k => Signal.progress ((k + 1) * 100 / total) :: progressList total m (k + 1)

lemma progressList_eq_map (total : ℕ) :
    ∀ m k, progressList total m k =
      (List.range m).map (fun i => Signal.progress ((k + i + 1) * 100 / total)) := by
  intro m
  induction m with
  | zero => intro k; rfl
  | succ m ih =>
    intro k
    rw [progressList, ih (k + 1), List.range_succ_eq_map, List.map_cons, List.map_map]
    refine congrArg₂ List.cons ?_ ?_
    · have h0 : k + 0 + 1 = k + 1 := by omega
      rw [h0]
    · apply List.map_congr_left
      intro i _
      simp only [Function.comp_apply]
      have h1 : k + Nat.succ i + 1 = k + 1 + i + 1 := by omega
      rw [h1]

lemma runLoop_spec {α : Type} (gen : α → Except String Unit) (total : ℕ)
    (out : String) (f : α) (post : List α) (e : String) (hf : gen f = .error e) :
    ∀ (pre : List α) (k : ℕ), (∀ d ∈ pre, gen d = .ok ()) →
      runLoop gen total out (pre ++ f :: post) k =
        (progressList total pre.length k ++ [Signal.error e], pre ++ [f]) := by
  intro pre
  induction pre with
  | nil =>
    intro k _
    simp [runLoop, progressList, hf]
  | cons d pre ih =>
    intro k hpre
    have hd : gen d = .ok () := hpre d (List.mem_cons_self d pre)
    simp only [List.cons_append, runLoop, hd, List.append_eq]
    rw [ih (k+1) (fun t ht => hpre t (List.mem_cons_of_mem d ht))]
    simp only [List.length_cons, progressList, Prod.mk.injEq, List.cons_append]

/-- C7: if generating one document of a batch fails, the run emits exactly one
progress signal per previously completed document followed by a single error
signal carrying the failure cause — no finished signal, no further progress
signals — and generation is never attempted on the remaining documents. -/
theorem run_aborts_batch_on_failure {α : Type} (pre post : List α) (f : α)
    (gen : α → Except String Unit) (out : String) (e : String)
    (hpre : ∀ d ∈ pre, gen d = .ok ()) (hf : gen f = .error e) :
    runWorker (pre ++ f :: post) gen out =
      ((List.range pre.length).map
          (fun i => Signal.progress ((i + 1) * 100 / (pre ++ f :: post).length)) ++
        [Signal.error e],
       pre ++ [f]) := by
  have hlen : (pre ++ f :: post).length ≠ 0 := by simp
  rw [runWorker, if_neg hlen]
  rw [runLoop_spec gen (pre ++ f :: post).length out f post e hf pre 0 hpre]
  rw [progressList_eq_map]
  refine congrArg₂ Prod.mk ?_ rfl
  refine congrArg₂ (· ++ ·) ?_ rfl
  apply List.map_congr_left
  intro i _
  have h0 : 0 + i + 1 = i + 1 := by omega
  rw [h0]

/-- Witness for C7: in the batch `[1, 2, 3]` where generating document `2`
fails, the run emits `progress 33` (for document `1`), then `error "boom"`,
and never attempts document `3`. -/
theorem run_aborts_batch_on_failure_witness :
    runWorker [1, 2, 3] (fun d => if d = 2 then Except.error "boom" else Except.ok ()) "out" =
      ([Signal.progress 33, Signal.error "boom"], [1, 2]) := by
  have h := run_aborts_batch_on_failure [1] [3] 2
    (fun d => if d = 2 then Except.error "boom" else Except.ok ()) "out" "boom"
    (by intro d hd; simp at hd; subst hd; norm_num) (by norm_num)
  simpa using h

/-- Lines 95-99 of `Worker._generate_pdf`: one placement's temp-file protocol.
`temp_img` is the fresh raster path; `saveOk` / `drawOk` model whether
`_save_page_as_png` / `c.drawImage` raise; `files` is the set of existing
temporary raster files.  The code runs `save`, `drawImage`, `os.remove` in
sequence with no `try/finally`, so an exception skips the removal. -/
def place_with_temp (temp_img : String) (saveOk drawOk : Bool) (files : List String) :
    Except String Unit × List String :=
  if !saveOk then (.error "save failed", files)
  else
    let files2 := temp_img :: files
    if !drawOk then (.error "draw failed", files2)
    else (.ok (), files2.erase temp_img)

/-- On the success path the temp raster file is removed before the sheet is
finalized (the `os.remove` on line 99). -/
theorem place_with_temp_removes_on_success (t : String) (files : List String) :
    place_with_temp t true true files = (.ok (), files) := by
  simp [place_with_temp]

/-- C8 fails on the code: when `c.drawImage` raises after the page raster was
written, `os.remove` is skipped and the temp `.png` stays behind while the
exception propagates. -/
theorem place_with_temp_leaks_on_draw_failure :
    place_with_temp "tmp-uuid.png" true false [] =
      (.error "draw failed", ["tmp-uuid.png"]) := by
  rfl

/-- C9 fails on the code: with the custom count `pages_per_sheet = 3` the
layout falls back to a single slot, but the inner loop still iterates slot
indices `0, 1, 2`, so a 2-page document reads `positions[1]` out of bounds and
generation aborts with an `IndexError`. -/
theorem generate_pdf_custom_count_index_error :
    generate_pdf 2 (10, 20) "Vertical" 3 0 none = .error "IndexError" := by
  have e3 : layout_positions ((10:ℚ), (20:ℚ)).1 ((10:ℚ), (20:ℚ)).2 3 0 =
      [⟨0, 0, 10, 20⟩] := by
    norm_num [layout_positions, cm_to_points, POINTS_PER_CM, Slot.mk.injEq]
  simp only [generate_pdf]
  rw [show effective_page_size (10, 20) "Vertical" = ((10:ℚ), (20:ℚ)) from rfl, e3]
  rfl
